import Mathlib

/-!
Shallow embedding of the core logic of `src/app.py` (an inventory browser):
the column guesser `guess_column`, the row filter `filter_search`, and the
pick-list aggregator `add_to_picklist`, together with theorems settling the
frozen claims about them.

Conventions of the embedding:
  * A pandas DataFrame is a `List Row`; a row is an ordered association list
    from column name to cell value (a Python dict preserves insertion order).
  * Cell values are `Val`: a string, an integer, or the missing value NaN.
  * Python `dict` assignment, `dict.get`, `str`, `==`, `str.lower`,
    `str.strip` and the subString operator `in` are modelled explicitly
    below, each following the Python semantics used by the source.
-/

namespace InvApp

/-- A cell value: a string, an integer, or the missing value (pandas NaN). -/
inductive Val where
  | vStr (s : String)
  | vInt (n : Int)
  | vNan
deriving DecidableEq, Repr

/-- Python `str(value)`; pandas `astype(str)` renders the missing value NaN
as the string "nan". -/
def pyStr : Val → String
  | .vStr s => s
  | .vInt n => toString n
  | .vNan => "nan"

/-- Python `==` on cell values: equal only within one type, and NaN compares
unequal to everything, itself included. -/
def pyEq : Val → Val → Bool
  | .vStr s, .vStr t => s == t
  | .vInt m, .vInt n => m == n
  | _, _ => false

/-- Python `==` on `dict.get` results: `None == None` is `True`,
`None == value` is `False`. -/
def pyEqOpt : Option Val → Option Val → Bool
  | none, none => true
  | some a, some b => pyEq a b
  | _, _ => false

/-- A record: ordered mapping from column name to value (a Python dict). -/
abbrev Row := List (String × Val)

/-- Python `dict.get(k)`: value at the first binding of `k`, if any. -/
def get (r : Row) (k : String) : Option Val :=
  (r.find? (fun p => p.1 == k)).map (fun p => p.2)

/-- Python `dict.get(k, d)`: `get` with a default. -/
def getD (r : Row) (k : String) (d : Val) : Val :=
  (get r k).getD d

/-- Python `dict[k] = v`: update the binding in place if `k` is present
(position preserved), else append the new binding at the end. -/
def setVal (r : Row) (k : String) (v : Val) : Row :=
  if r.any (fun p => p.1 == k) then
    r.map (fun p => if p.1 == k then (k, v) else p)
  else r ++ [(k, v)]

/-- Python `str.lower()` (ASCII, as used on the catalog's column names). -/
def pyLower (s : String) : String := ⟨s.data.map Char.toLower⟩

/-- Python `str.strip()`: drop leading and trailing whitespace. -/
def pyStrip (s : String) : String :=
  ⟨((s.data.dropWhile Char.isWhitespace).reverse.dropWhile Char.isWhitespace).reverse⟩

/-- Python `needle in hay` on strings: `needle` occurs contiguously in
`hay` (the empty needle always occurs). -/
def strIn (needle hay : List Char) : Bool :=
  match hay with
  | [] => needle.isEmpty
  | _ :: t => needle.isPrefixOf hay || strIn needle t

/-- Python `cand in col` for strings, as used by `guess_column`. -/
def pyContains (hay needle : String) : Bool := strIn needle.data hay.data

/- ----------------------------------------------------------------
   guess_column (src/app.py lines 39-51)
   ---------------------------------------------------------------- -/

/-- One step of the dict comprehension building `cols_lower`: insert key
`k` with value `v`, overwriting in place when `k` is already present
(Python dict semantics: first-insertion position, last value). -/
def dictInsert (d : List (String × String)) (k v : String) : List (String × String) :=
  if d.any (fun p => p.1 == k) then
    d.map (fun p => if p.1 == k then (k, v) else p)
  else d ++ [(k, v)]

/-- `cols_lower = {c.lower(): c for c in columns}` from `guess_column`. -/
def colsLower (columns : List String) : List (String × String) :=
  columns.foldl (fun d c => dictInsert d (pyLower c) c) []

/-- The inner loop of `guess_column`: first entry of `cols_lower` whose key
contains the (already lowercased) candidate; returns its original name. -/
def findCand (d : List (String × String)) (cand : String) : Option String :=
  (d.find? (fun p => pyContains p.1 cand)).map (fun p => p.2)

/-- `guess_column(columns, candidates)` from src/app.py: for each candidate
in order, scan `cols_lower`; fall back to the first column (None if none). -/
def guess_column (columns : List String) (candidates : List String) : Option String :=
  match candidates.findSome? (fun cand => findCand (colsLower columns) (pyLower cand)) with
  | some c => some c
  | none => columns.head?

/- ----------------------------------------------------------------
   filter_search (src/app.py lines 54-67)
   ---------------------------------------------------------------- -/

/-- `df[col].astype(str)` applied to one cell of a row: the stringified
value, a missing column being pandas NaN (stringified to "nan"). -/
def cellStr (r : Row) (c : String) : String := pyStr (getD r c .vNan)

/-- `Series.str.contains(term, case=False, na=False)` on one cell, modelled
for terms that contain no regular-expression metacharacter, where the
regex search the source performs coincides with case-insensitive
subString containment. -/
def pyContainsCI (hay term : String) : Bool :=
  strIn (pyLower term).data (pyLower hay).data

/-- Regular-expression metacharacters of Python `re`. -/
def regexMeta : List Char :=
  ['.', '^', '$', '*', '+', '?', '\x7b', '\x7d', '[', ']', '(', ')', '|', '\\']

/-- Terms on which `Series.str.contains` is a plain subString search. -/
def regexLiteral (s : String) : Bool :=
  s.data.all (fun c => !(regexMeta.contains c))

/-- `filter_search(df, term, search_columns)` from src/app.py: empty or
all-whitespace terms return the input unchanged; otherwise keep the rows
where some search column's stringified value contains the stripped term
case-insensitively (the OR-mask over the columns). -/
def filter_search (df : List Row) (term : String) (search_columns : List String) : List Row :=
  if term == "" then df
  else
    let t := pyStrip term
    if t == "" then df
    else df.filter (fun r => search_columns.any (fun c => pyContainsCI (cellStr r c) t))

/- ----------------------------------------------------------------
   add_to_picklist (src/app.py lines 76-106) and the clear action
   (src/app.py lines 353-354)
   ---------------------------------------------------------------- -/

/-- `quantities.get(prod, 0)`. -/
def lookupQty (quantities : List (String × Int)) (prod : String) : Int :=
  ((quantities.find? (fun p => p.1 == prod)).map (fun p => p.2)).getD 0

/-- `df[df[product_col].astype(str) == str(prod)]` followed by `.iloc[0]`:
the first record whose stringified product-column value equals `prod`. -/
def firstMatch (df : List Row) (product_col : String) (prod : String) : Option Row :=
  df.find? (fun r => pyStr (getD r product_col .vNan) == prod)

/-- `existing.get("Menge", 0) + qty`. Adding an integer to a string raises
TypeError in Python; entries built by `add_to_picklist` always hold an
integer there, so that case is unreachable and modelled as the identity. -/
def mengeAdd (o : Option Val) (qty : Int) : Val :=
  match o with
  | none => .vInt qty
  | some (.vInt n) => .vInt (n + qty)
  | some .vNan => .vNan
  | some (.vStr s) => .vStr s

/-- Lines 90-96: copy the matched record, set `row["Menge"] = qty`, and if
`location_col` is truthy and a key of the row, set
`row["Lagerort_Anzeige"] = row[location_col]`. -/
def buildEntry (r : Row) (location_col : Option String) (qty : Int) : Row :=
  let row := setVal r "Menge" (.vInt qty)
  match location_col with
  | none => row
  | some l =>
    if l != "" && row.any (fun p => p.1 == l) then
      setVal row "Lagerort_Anzeige" (getD row l .vNan)
    else row

/-- Lines 99-104: scan the pick list for the first entry whose
`product_col` value equals the new row's (`existing.get(product_col) ==
row.get(product_col)`); on a hit add `qty` to its `Menge` in place.
`none` means no entry matched. -/
def mergeInto (pl : List Row) (product_col : String) (rowKey : Option Val) (qty : Int) :
    Option (List Row) :=
  match pl with
  | [] => none
  | e :: rest =>
    if pyEqOpt (get e product_col) rowKey then
      some (setVal e "Menge" (mengeAdd (get e "Menge") qty) :: rest)
    else
      (mergeInto rest product_col rowKey qty).map (fun pl' => e :: pl')

/-- The body of the `for prod in selected_products` loop of
`add_to_picklist`: skip on non-positive quantity or no matching record,
else merge into an existing entry or append the new entry at the end. -/
def addOne (df : List Row) (product_col : String) (location_col : Option String)
    (quantities : List (String × Int)) (pl : List Row) (prod : String) : List Row :=
  let qty := lookupQty quantities prod
  if qty ≤ 0 then pl
  else
    match firstMatch df product_col prod with
    | none => pl
    | some r =>
      let row := buildEntry r location_col qty
      match mergeInto pl product_col (get row product_col) qty with
      | some pl' => pl'
      | none => pl ++ [row]

/-- `add_to_picklist(df, product_col, location_col, selected_products,
quantities)` acting on the session pick list `pl`. -/
def add_to_picklist (df : List Row) (product_col : String) (location_col : Option String)
    (selected_products : List String) (quantities : List (String × Int))
    (pl : List Row) : List Row :=
  selected_products.foldl (addOne df product_col location_col quantities) pl

/-- A user action on the pick list: an add (lines 312-313) or the clear
button (lines 353-354, which resets the list to empty). -/
inductive Op where
  | add (selected : List String) (quantities : List (String × Int))
  | clear
deriving Repr

/-- Apply one user action to the pick list. -/
def runOp (df : List Row) (product_col : String) (location_col : Option String)
    (pl : List Row) : Op → List Row
  | .add sel q => add_to_picklist df product_col location_col sel q pl
  | .clear => []

/-- Apply a sequence of user actions starting from the empty pick list. -/
def runOps (df : List Row) (product_col : String) (location_col : Option String)
    (ops : List Op) : List Row :=
  ops.foldl (runOp df product_col location_col) []

/-- Spec invariant, first half: every entry holds a positive quantity
under "Menge". -/
abbrev quantitiesPos (pl : List Row) : Prop :=
  ∀ e ∈ pl, ∃ n : Int, get e "Menge" = some (.vInt n) ∧ 0 < n

/-- Spec invariant, second half: no two entries share an identity key
(the stringified value at the product column). -/
abbrev keysDistinct (product_col : String) (pl : List Row) : Prop :=
  (pl.map (fun e => (get e product_col).map pyStr)).Pairwise (fun a b => a ≠ b)

instance (product_col : String) (pl : List Row) : Decidable (keysDistinct product_col pl) := by
  unfold keysDistinct
  infer_instance

/-- The Pick List invariant claimed by the spec (§3). -/
abbrev picklistInv (product_col : String) (pl : List Row) : Prop :=
  quantitiesPos pl ∧ keysDistinct product_col pl

/-- Auxiliary invariant: an entry's product-column value is the one of the
first catalog record matching some identity (the record `add_to_picklist`
copied it from). -/
abbrev entryOK (df : List Row) (product_col : String) (e : Row) : Prop :=
  ∃ prod r, firstMatch df product_col prod = some r ∧ get e product_col = get r product_col

/-- Auxiliary inductive invariant of the pick list: positive quantities,
entries sourced from first-matching catalog records, and pairwise distinct
product-column values under the code's own comparison (`pyEqOpt`). -/
abbrev invAux (df : List Row) (product_col : String) (pl : List Row) : Prop :=
  quantitiesPos pl ∧ (∀ e ∈ pl, entryOK df product_col e) ∧
    pl.Pairwise (fun e1 e2 => pyEqOpt (get e1 product_col) (get e2 product_col) = false)

/- ----------------------------------------------------------------
   Basic lemmas about the Python-semantics helpers
   ---------------------------------------------------------------- -/

theorem get_cons (p : String × Val) (t : Row) (k : String) :
    get (p :: t) k = if p.1 = k then some p.2 else get t k := by
  by_cases hp : p.1 = k
  · simp [get, List.find?_cons_of_pos, hp]
  · rw [if_neg hp]
    unfold get
    rw [List.find?_cons_of_neg]
    simp [hp]

theorem get_map_update (r : Row) (k : String) (v : Val)
    (h : r.any (fun p => p.1 == k) = true) :
    get (r.map (fun p => if p.1 == k then (k, v) else p)) k = some v := by
  induction r with
  | nil => simp at h
  | cons p t ih =>
    rw [List.map_cons]
    by_cases hp : p.1 = k
    · simp [get_cons, hp]
    · have ht : t.any (fun p => p.1 == k) = true := by simpa [hp] using h
      rw [get_cons]
      simpa [hp] using ih ht

theorem get_append_single (r : Row) (k : String) (v : Val)
    (h : r.any (fun p => p.1 == k) = false) :
    get (r ++ [(k, v)]) k = some v := by
  induction r with
  | nil => simp [get_cons]
  | cons p t ih =>
    have hp : ¬ p.1 = k := by
      intro he
      simp [he] at h
    have ht : t.any (fun p => p.1 == k) = false := by simpa [hp] using h
    rw [List.cons_append, get_cons, if_neg hp]
    exact ih ht

theorem get_setVal_same (r : Row) (k : String) (v : Val) :
    get (setVal r k v) k = some v := by
  unfold setVal
  by_cases h : r.any (fun p => p.1 == k) = true
  · rw [if_pos h]
    exact get_map_update r k v h
  · rw [if_neg h]
    exact get_append_single r k v (Bool.of_not_eq_true h)

theorem get_update_ne (r : Row) (k : String) (v : Val) (k' : String) (hne : k' ≠ k) :
    get (r.map (fun p => if p.1 == k then (k, v) else p)) k' = get r k' := by
  induction r with
  | nil => rfl
  | cons p t ih =>
    rw [List.map_cons]
    by_cases hp : p.1 = k
    · have hhead : (if (p.1 == k) = true then (k, v) else p) = (k, v) := by simp [hp]
      have hk : ¬ (k = k') := fun he => hne he.symm
      have hp1 : ¬ (p.1 = k') := by rw [hp]; exact hk
      rw [hhead, get_cons, get_cons, if_neg hk, if_neg hp1]
      exact ih
    · have hhead : (if (p.1 == k) = true then (k, v) else p) = p := by simp [hp]
      rw [hhead, get_cons, get_cons]
      by_cases hp' : p.1 = k'
      · rw [if_pos hp', if_pos hp']
      · rw [if_neg hp', if_neg hp']
        exact ih

theorem get_append_ne (r : Row) (k : String) (v : Val) (k' : String) (hne : k' ≠ k) :
    get (r ++ [(k, v)]) k' = get r k' := by
  induction r with
  | nil =>
    have hk : ¬ (k = k') := fun he => hne he.symm
    rw [List.nil_append, get_cons, if_neg hk]
  | cons p t ih =>
    rw [List.cons_append, get_cons, get_cons]
    by_cases hp' : p.1 = k'
    · rw [if_pos hp', if_pos hp']
    · rw [if_neg hp', if_neg hp']
      exact ih

theorem get_setVal_ne (r : Row) (k : String) (v : Val) (k' : String) (hne : k' ≠ k) :
    get (setVal r k v) k' = get r k' := by
  unfold setVal
  by_cases h : r.any (fun p => p.1 == k) = true
  · rw [if_pos h]
    exact get_update_ne r k v k' hne
  · rw [if_neg h]
    exact get_append_ne r k v k' hne

theorem pyEq_eq {a b : Val} (h : pyEq a b = true) : a = b := by
  cases a <;> cases b <;> simp [pyEq] at h <;> simp [h]

theorem pyEq_refl {v : Val} (h : v ≠ .vNan) : pyEq v v = true := by
  cases v with
  | vStr s => simp [pyEq]
  | vInt n => simp [pyEq]
  | vNan => exact absurd rfl h

theorem pyEqOpt_refl {o : Option Val} (h : o ≠ some .vNan) : pyEqOpt o o = true := by
  cases o with
  | none => rfl
  | some v =>
    have hv : v ≠ .vNan := fun he => h (by rw [he])
    simpa [pyEqOpt] using pyEq_refl hv

theorem firstMatch_mem {df : List Row} {pc prod : String} {r : Row}
    (h : firstMatch df pc prod = some r) : r ∈ df :=
  List.mem_of_find?_eq_some h

theorem firstMatch_key {df : List Row} {pc prod : String} {r : Row}
    (h : firstMatch df pc prod = some r) : pyStr (getD r pc .vNan) = prod := by
  have := List.find?_some h
  simpa using this

theorem mergeInto_eq_none {pl : List Row} {pc : String} {key : Option Val} {q : Int} :
    mergeInto pl pc key q = none ↔ ∀ e ∈ pl, pyEqOpt (get e pc) key = false := by
  induction pl with
  | nil => simp [mergeInto]
  | cons e rest ih =>
    by_cases hc : pyEqOpt (get e pc) key = true
    · simp [mergeInto, hc]
    · have hc' : pyEqOpt (get e pc) key = false := Bool.of_not_eq_true hc
      simp [mergeInto, hc', ih]

theorem mergeInto_some {pl : List Row} {pc : String} {key : Option Val} {q : Int}
    {pl' : List Row} (h : mergeInto pl pc key q = some pl') :
    ∃ pre e post, pl = pre ++ e :: post ∧
      pl' = pre ++ setVal e "Menge" (mengeAdd (get e "Menge") q) :: post ∧
      (∀ x ∈ pre, pyEqOpt (get x pc) key = false) ∧
      pyEqOpt (get e pc) key = true := by
  induction pl generalizing pl' with
  | nil => simp [mergeInto] at h
  | cons e rest ih =>
    by_cases hc : pyEqOpt (get e pc) key = true
    · rw [mergeInto, if_pos hc] at h
      exact ⟨[], e, rest, rfl, by simpa using h.symm, by simp, hc⟩
    · have hc' : pyEqOpt (get e pc) key = false := Bool.of_not_eq_true hc
      rw [mergeInto, if_neg hc] at h
      cases hm : mergeInto rest pc key q with
      | none => rw [hm] at h; simp at h
      | some pl'' =>
        rw [hm] at h
        have h' : e :: pl'' = pl' := by simpa using h
        obtain ⟨pre, x, post, hpl, hpl', hpre, hx⟩ := ih hm
        refine ⟨e :: pre, x, post, by rw [hpl]; rfl, ?_, ?_, hx⟩
        · rw [← h', hpl']
          rfl
        · intro y hy
          rcases List.mem_cons.mp hy with hy | hy
          · rw [hy]; exact hc'
          · exact hpre y hy

theorem mergeInto_found (pc : String) (key : Option Val) (q : Int) (e : Row)
    (post : List Row) :
    ∀ pre, (∀ x ∈ pre, pyEqOpt (get x pc) key = false) →
      pyEqOpt (get e pc) key = true →
      mergeInto (pre ++ e :: post) pc key q =
        some (pre ++ setVal e "Menge" (mengeAdd (get e "Menge") q) :: post) := by
  intro pre
  induction pre with
  | nil =>
    intro _ he
    rw [List.nil_append, mergeInto, if_pos he, List.nil_append]
  | cons x t ih =>
    intro hpre he
    have hx : pyEqOpt (get x pc) key = false := hpre x (List.mem_cons_self x t)
    rw [List.cons_append, mergeInto, if_neg (by rw [hx]; exact Bool.false_ne_true),
      ih (fun y hy => hpre y (List.mem_cons_of_mem x hy)) he]
    rfl

theorem buildEntry_none (r : Row) (q : Int) :
    buildEntry r none q = setVal r "Menge" (.vInt q) := rfl

theorem buildEntry_some (r : Row) (l : String) (q : Int) :
    buildEntry r (some l) q =
      if (l != "" && (setVal r "Menge" (.vInt q)).any (fun p => p.1 == l)) = true then
        setVal (setVal r "Menge" (.vInt q)) "Lagerort_Anzeige"
          (getD (setVal r "Menge" (.vInt q)) l .vNan)
      else setVal r "Menge" (.vInt q) := rfl

theorem get_buildEntry_Menge (r : Row) (lc : Option String) (q : Int) :
    get (buildEntry r lc q) "Menge" = some (.vInt q) := by
  cases lc with
  | none => exact get_setVal_same r "Menge" (.vInt q)
  | some l =>
    rw [buildEntry_some]
    by_cases hg : (l != "" && (setVal r "Menge" (.vInt q)).any (fun p => p.1 == l)) = true
    · rw [if_pos hg, get_setVal_ne _ _ _ _ (by decide), get_setVal_same]
    · rw [if_neg hg]
      exact get_setVal_same r "Menge" (.vInt q)

theorem get_buildEntry_ne (r : Row) (lc : Option String) (q : Int) (k : String)
    (h1 : k ≠ "Menge") (h2 : k ≠ "Lagerort_Anzeige") :
    get (buildEntry r lc q) k = get r k := by
  cases lc with
  | none => exact get_setVal_ne r "Menge" (.vInt q) k h1
  | some l =>
    rw [buildEntry_some]
    by_cases hg : (l != "" && (setVal r "Menge" (.vInt q)).any (fun p => p.1 == l)) = true
    · rw [if_pos hg, get_setVal_ne _ _ _ _ h2, get_setVal_ne _ _ _ _ h1]
    · rw [if_neg hg]
      exact get_setVal_ne r "Menge" (.vInt q) k h1

theorem findSome?_append_none {α β : Type} {f : α → Option β} {pre rest : List α}
    (h : ∀ a ∈ pre, f a = none) :
    (pre ++ rest).findSome? f = rest.findSome? f := by
  induction pre with
  | nil => rfl
  | cons a t ih =>
    rw [List.cons_append, List.findSome?_cons, h a (List.mem_cons_self a t)]
    exact ih (fun b hb => h b (List.mem_cons_of_mem a hb))

theorem find?_append_none {α : Type} {p : α → Bool} {pre rest : List α}
    (h : ∀ a ∈ pre, p a = false) :
    (pre ++ rest).find? p = rest.find? p := by
  induction pre with
  | nil => rfl
  | cons a t ih =>
    have ha : ¬ (p a = true) := by
      rw [h a (List.mem_cons_self a t)]
      exact Bool.false_ne_true
    rw [List.cons_append, List.find?_cons_of_neg _ ha]
    exact ih (fun b hb => h b (List.mem_cons_of_mem a hb))

theorem dictInsert_mem {d : List (String × String)} {k v : String} {p : String × String}
    (h : p ∈ dictInsert d k v) : p ∈ d ∨ p = (k, v) := by
  unfold dictInsert at h
  by_cases hc : d.any (fun q => q.1 == k) = true
  · rw [if_pos hc] at h
    obtain ⟨q, hq, hqp⟩ := List.mem_map.mp h
    by_cases hk : q.1 = k
    · right
      rw [← hqp, if_pos (by simpa using hk)]
    · left
      rw [← hqp, if_neg (by simpa using hk)]
      exact hq
  · rw [if_neg hc] at h
    rcases List.mem_append.mp h with hd | hs
    · exact Or.inl hd
    · exact Or.inr (by simpa using hs)

theorem colsLower_mem {columns : List String} {p : String × String}
    (h : p ∈ colsLower columns) : p.2 ∈ columns ∧ pyLower p.2 = p.1 := by
  suffices hgen : ∀ (cols : List String) (d : List (String × String)),
      p ∈ List.foldl (fun d c => dictInsert d (pyLower c) c) d cols →
      p ∈ d ∨ ∃ c ∈ cols, p = (pyLower c, c) by
    rcases hgen columns [] h with hd | ⟨c, hc, hp⟩
    · simp at hd
    · rw [hp]
      exact ⟨hc, rfl⟩
  intro cols
  induction cols with
  | nil => intro d hd; exact Or.inl hd
  | cons c t ih =>
    intro d hd
    rcases ih (dictInsert d (pyLower c) c) hd with hmem | ⟨c', hc', hp⟩
    · rcases dictInsert_mem hmem with hmem | hp
      · exact Or.inl hmem
      · exact Or.inr ⟨c, List.mem_cons_self c t, hp⟩
    · exact Or.inr ⟨c', List.mem_cons_of_mem c hc', hp⟩

theorem addOne_def (df : List Row) (pc : String) (lc : Option String)
    (qs : List (String × Int)) (pl : List Row) (prod : String) :
    addOne df pc lc qs pl prod =
      if lookupQty qs prod ≤ 0 then pl
      else
        match firstMatch df pc prod with
        | none => pl
        | some r =>
          match mergeInto pl pc (get (buildEntry r lc (lookupQty qs prod)) pc)
              (lookupQty qs prod) with
          | some pl' => pl'
          | none => pl ++ [buildEntry r lc (lookupQty qs prod)] := rfl

theorem invAux_nil (df : List Row) (pc : String) : invAux df pc [] := by
  refine ⟨?_, ?_, List.Pairwise.nil⟩ <;> intro e he <;> exact absurd he (List.not_mem_nil e)

theorem invAux_addOne (df : List Row) (pc : String) (lc : Option String)
    (qs : List (String × Int)) (pl : List Row) (prod : String)
    (h1 : pc ≠ "Menge") (h2 : pc ≠ "Lagerort_Anzeige")
    (hpl : invAux df pc pl) : invAux df pc (addOne df pc lc qs pl prod) := by
  rw [addOne_def]
  by_cases hq : lookupQty qs prod ≤ 0
  · rw [if_pos hq]
    exact hpl
  · rw [if_neg hq]
    have hqpos : 0 < lookupQty qs prod := not_le.mp hq
    cases hfm : firstMatch df pc prod with
    | none => exact hpl
    | some r =>
      dsimp only
      obtain ⟨hpos, hok, hpw⟩ := hpl
      cases hm : mergeInto pl pc (get (buildEntry r lc (lookupQty qs prod)) pc)
          (lookupQty qs prod) with
      | none =>
        dsimp only
        have hkey := mergeInto_eq_none.mp hm
        refine ⟨?_, ?_, ?_⟩
        · intro e he
          rcases List.mem_append.mp he with he | he
          · exact hpos e he
          · have heq : e = buildEntry r lc (lookupQty qs prod) := by simpa using he
            exact ⟨lookupQty qs prod, by rw [heq, get_buildEntry_Menge], hqpos⟩
        · intro e he
          rcases List.mem_append.mp he with he | he
          · exact hok e he
          · have heq : e = buildEntry r lc (lookupQty qs prod) := by simpa using he
            exact ⟨prod, r, hfm, by rw [heq, get_buildEntry_ne _ _ _ _ h1 h2]⟩
        · rw [List.pairwise_append]
          refine ⟨hpw, List.pairwise_singleton _ _, ?_⟩
          intro a ha b hb
          have hb' : b = buildEntry r lc (lookupQty qs prod) := by simpa using hb
          rw [hb']
          exact hkey a ha
      | some pl' =>
        dsimp only
        obtain ⟨pre, e, post, hplstruct, hpl', hpre, he⟩ := mergeInto_some hm
        have hkey' : get (setVal e "Menge" (mengeAdd (get e "Menge") (lookupQty qs prod))) pc
            = get e pc := get_setVal_ne _ _ _ _ h1
        subst hplstruct
        rw [hpl']
        have hemem : e ∈ pre ++ e :: post :=
          List.mem_append.mpr (Or.inr (List.mem_cons_self e post))
        refine ⟨?_, ?_, ?_⟩
        · intro x hx
          rcases List.mem_append.mp hx with hx | hx
          · exact hpos x (List.mem_append.mpr (Or.inl hx))
          · rcases List.mem_cons.mp hx with hx | hx
            · obtain ⟨n, hn, hnpos⟩ := hpos e hemem
              refine ⟨n + lookupQty qs prod, ?_, Int.add_pos hnpos hqpos⟩
              rw [hx, get_setVal_same, hn]
              rfl
            · exact hpos x (List.mem_append.mpr (Or.inr (List.mem_cons_of_mem e hx)))
        · intro x hx
          rcases List.mem_append.mp hx with hx | hx
          · exact hok x (List.mem_append.mpr (Or.inl hx))
          · rcases List.mem_cons.mp hx with hx | hx
            · obtain ⟨pr, rr, hfm', hge⟩ := hok e hemem
              exact ⟨pr, rr, hfm', by rw [hx, hkey', hge]⟩
            · exact hok x (List.mem_append.mpr (Or.inr (List.mem_cons_of_mem e hx)))
        · rw [List.pairwise_append] at hpw ⊢
          obtain ⟨hpw1, hpw2, hcross⟩ := hpw
          rw [List.pairwise_cons] at hpw2 ⊢
          obtain ⟨hehead, hpost⟩ := hpw2
          refine ⟨hpw1, ⟨?_, hpost⟩, ?_⟩
          · intro b hb
            rw [hkey']
            exact hehead b hb
          · intro a ha b hb
            rcases List.mem_cons.mp hb with hb | hb
            · rw [hb, hkey']
              exact hcross a ha e (List.mem_cons_self e post)
            · exact hcross a ha b (List.mem_cons_of_mem _ hb)

theorem invAux_add_to_picklist (df : List Row) (pc : String) (lc : Option String)
    (sel : List String) (qs : List (String × Int)) (pl : List Row)
    (h1 : pc ≠ "Menge") (h2 : pc ≠ "Lagerort_Anzeige")
    (hpl : invAux df pc pl) : invAux df pc (add_to_picklist df pc lc sel qs pl) := by
  induction sel generalizing pl with
  | nil => exact hpl
  | cons p t ih => exact ih _ (invAux_addOne df pc lc qs pl p h1 h2 hpl)

theorem invAux_runOps (df : List Row) (pc : String) (lc : Option String) (ops : List Op)
    (h1 : pc ≠ "Menge") (h2 : pc ≠ "Lagerort_Anzeige") :
    invAux df pc (runOps df pc lc ops) := by
  suffices h : ∀ (ops : List Op) (pl : List Row), invAux df pc pl →
      invAux df pc (ops.foldl (runOp df pc lc) pl) from
    h ops [] (invAux_nil df pc)
  intro ops
  induction ops with
  | nil => intro pl hpl; exact hpl
  | cons op t ih =>
    intro pl hpl
    cases op with
    | add sel q => exact ih _ (invAux_add_to_picklist df pc lc sel q pl h1 h2 hpl)
    | clear => exact ih _ (invAux_nil df pc)

/-- C2 (amended): for every sequence of add and clear operations starting
from an empty Pick List, the Pick List always satisfies: every entry has
quantity > 0, and no two entries share the same identity key (the
stringified value at the product column) — provided the product column is
not one of the fixed entry-field names "Menge" / "Lagerort_Anzeige" and no
catalog record holds NaN in the product column. -/
theorem picklist_invariant_holds (df : List Row) (pc : String) (lc : Option String)
    (ops : List Op) (h1 : pc ≠ "Menge") (h2 : pc ≠ "Lagerort_Anzeige")
    (h3 : ∀ r ∈ df, get r pc ≠ some .vNan) :
    picklistInv pc (runOps df pc lc ops) := by
  obtain ⟨hpos, hok, hpw⟩ := invAux_runOps df pc lc ops h1 h2
  refine ⟨hpos, ?_⟩
  rw [keysDistinct, List.pairwise_map]
  refine List.Pairwise.imp_of_mem ?_ hpw
  intro e1 e2 h1m h2m hR heq
  cases hg1 : get e1 pc with
  | none =>
    cases hg2 : get e2 pc with
    | none =>
      rw [hg1, hg2] at hR
      simp [pyEqOpt] at hR
    | some v2 =>
      rw [hg1, hg2] at heq
      simp at heq
  | some v1 =>
    cases hg2 : get e2 pc with
    | none =>
      rw [hg1, hg2] at heq
      simp at heq
    | some v2 =>
      rw [hg1, hg2] at heq
      have hstr : pyStr v1 = pyStr v2 := by simpa using heq
      obtain ⟨p1, r1, hr1, he1⟩ := hok e1 h1m
      obtain ⟨p2, r2, hr2, he2⟩ := hok e2 h2m
      have hv1 : get r1 pc = some v1 := by rw [← he1, hg1]
      have hv2 : get r2 pc = some v2 := by rw [← he2, hg2]
      have hp1 : p1 = pyStr v1 := by
        have hk := firstMatch_key hr1
        rw [getD, hv1] at hk
        exact hk.symm
      have hp2 : p2 = pyStr v2 := by
        have hk := firstMatch_key hr2
        rw [getD, hv2] at hk
        exact hk.symm
      have hreq : r1 = r2 := by
        rw [hp2, ← hstr, ← hp1] at hr2
        rw [hr1] at hr2
        exact Option.some.inj hr2
      have hveq : v1 = v2 := by
        rw [hreq, hv2] at hv1
        exact (Option.some.inj hv1).symm
      have hnan : v1 ≠ .vNan := by
        intro hEq
        exact h3 r1 (firstMatch_mem hr1) (by rw [hv1, hEq])
      rw [hg1, hg2, ← hveq, pyEqOpt, pyEq_refl hnan] at hR
      simp at hR

theorem picklist_invariant_holds_witness :
    (("Item" : String) ≠ "Menge" ∧ ("Item" : String) ≠ "Lagerort_Anzeige" ∧
      (∀ r ∈ [[("Item", Val.vStr "Bolt"), ("Bin", Val.vStr "A1")]], get r "Item" ≠ some .vNan)) ∧
    picklistInv "Item" (runOps [[("Item", Val.vStr "Bolt"), ("Bin", Val.vStr "A1")]]
      "Item" (some "Bin") [.add ["Bolt"] [("Bolt", 2)], .add ["Bolt"] [("Bolt", 3)]]) :=
  ⟨⟨by decide, by decide, by decide⟩,
    picklist_invariant_holds [[("Item", Val.vStr "Bolt"), ("Bin", Val.vStr "A1")]]
      "Item" (some "Bin") [.add ["Bolt"] [("Bolt", 2)], .add ["Bolt"] [("Bolt", 3)]]
      (by decide) (by decide) (by decide)⟩

/-- C2 as stated is false: with the product column literally named "Menge",
merging adds to the entry's "Menge" field, which is also its identity key,
so a later merge can make two entries collide on the same identity key.
The adds with quantities 2, 3, 1, 1 of the same product end in a Pick List
whose first and third entries both have identity key "2". -/
theorem picklist_invariant_counterexample :
    ¬ picklistInv "Menge" (runOps [[("Menge", Val.vStr "5")]] "Menge" none
      [.add ["5"] [("5", 2)], .add ["5"] [("5", 3)],
       .add ["5"] [("5", 1)], .add ["5"] [("5", 1)]]) := by
  intro h
  exact absurd h.2 (by decide)

/-- C1 (amended): calling add twice with the same product identity and
positive quantities q1 then q2, starting from the empty Pick List, yields
exactly one entry with that identity key and quantity q1 + q2; an identity
not yet present is appended as a new entry at the end — provided the
product column is not one of the fixed entry-field names "Menge" /
"Lagerort_Anzeige", some catalog record's stringified product-column value
equals the identity, and that record's product-column value is not NaN. -/
theorem add_merges_duplicate_identity (df : List Row) (pc : String) (lc : Option String)
    (prod : String) (r : Row) (q1 q2 : Int)
    (qs1 qs2 : List (String × Int))
    (h1 : pc ≠ "Menge") (h2 : pc ≠ "Lagerort_Anzeige")
    (hr : firstMatch df pc prod = some r) (hnan : get r pc ≠ some .vNan)
    (hq1 : lookupQty qs1 prod = q1) (hpos1 : 0 < q1)
    (hq2 : lookupQty qs2 prod = q2) (hpos2 : 0 < q2) :
    (∃ e, add_to_picklist df pc lc [prod] qs2 (add_to_picklist df pc lc [prod] qs1 []) = [e] ∧
      get e "Menge" = some (.vInt (q1 + q2)) ∧ pyStr (getD e pc .vNan) = prod) ∧
    (∀ pl, (∀ x ∈ pl, pyStr (getD x pc .vNan) ≠ prod) →
      ∃ e, add_to_picklist df pc lc [prod] qs1 pl = pl ++ [e] ∧
        pyStr (getD e pc .vNan) = prod ∧ get e "Menge" = some (.vInt q1)) := by
  have hkey1 : get (buildEntry r lc q1) pc = get r pc := get_buildEntry_ne r lc q1 pc h1 h2
  have hkey2 : get (buildEntry r lc q2) pc = get r pc := get_buildEntry_ne r lc q2 pc h1 h2
  have hrkey : pyStr (getD r pc .vNan) = prod := firstMatch_key hr
  have hmergeNone : ∀ pl : List Row, (∀ x ∈ pl, pyStr (getD x pc .vNan) ≠ prod) →
      ∀ q : Int, mergeInto pl pc (get r pc) q = none := by
    intro pl hpl q
    refine mergeInto_eq_none.mpr ?_
    intro x hx
    by_contra hxc
    have hxc' : pyEqOpt (get x pc) (get r pc) = true := Bool.of_not_eq_false hxc
    cases hgr : get r pc with
    | none =>
      rw [hgr] at hxc'
      cases hgx : get x pc with
      | some w => rw [hgx] at hxc'; simp [pyEqOpt] at hxc'
      | none =>
        refine hpl x hx ?_
        rw [getD, hgx]
        rw [getD, hgr] at hrkey
        exact hrkey
    | some v =>
      rw [hgr] at hxc'
      cases hgx : get x pc with
      | none => rw [hgx] at hxc'; simp [pyEqOpt] at hxc'
      | some w =>
        rw [hgx] at hxc'
        have hwv : w = v := pyEq_eq (by simpa [pyEqOpt] using hxc')
        refine hpl x hx ?_
        rw [getD, hgx, hwv]
        rw [getD, hgr] at hrkey
        exact hrkey
  have happend : ∀ (pl : List Row) (qs : List (String × Int)) (q : Int),
      lookupQty qs prod = q → 0 < q → (∀ x ∈ pl, pyStr (getD x pc .vNan) ≠ prod) →
      add_to_picklist df pc lc [prod] qs pl = pl ++ [buildEntry r lc q] := by
    intro pl qs q hq hpos hpl
    show addOne df pc lc qs pl prod = _
    rw [addOne_def, hq, if_neg (not_le.mpr hpos), hr]
    dsimp only
    rw [show get (buildEntry r lc q) pc = get r pc from get_buildEntry_ne r lc q pc h1 h2,
      hmergeNone pl hpl q]
  constructor
  · have hadd1 : add_to_picklist df pc lc [prod] qs1 [] = [buildEntry r lc q1] := by
      have := happend [] qs1 q1 hq1 hpos1 (by intro x hx; exact absurd hx (List.not_mem_nil x))
      simpa using this
    have hcond : pyEqOpt (get (buildEntry r lc q1) pc) (get (buildEntry r lc q2) pc) = true := by
      rw [hkey1, hkey2]
      exact pyEqOpt_refl hnan
    have hmg : mergeInto [buildEntry r lc q1] pc (get (buildEntry r lc q2) pc) q2 =
        some [setVal (buildEntry r lc q1) "Menge"
          (mengeAdd (get (buildEntry r lc q1) "Menge") q2)] := by
      have := mergeInto_found pc (get (buildEntry r lc q2) pc) q2 (buildEntry r lc q1) [] []
        (by intro x hx; exact absurd hx (List.not_mem_nil x)) hcond
      simpa using this
    have hadd2 : add_to_picklist df pc lc [prod] qs2 [buildEntry r lc q1] =
        [setVal (buildEntry r lc q1) "Menge"
          (mengeAdd (get (buildEntry r lc q1) "Menge") q2)] := by
      show addOne df pc lc qs2 [buildEntry r lc q1] prod = _
      rw [addOne_def, hq2, if_neg (not_le.mpr hpos2), hr]
      dsimp only
      rw [hmg]
    refine ⟨setVal (buildEntry r lc q1) "Menge"
      (mengeAdd (get (buildEntry r lc q1) "Menge") q2), ?_, ?_, ?_⟩
    · rw [hadd1, hadd2]
    · rw [get_setVal_same, get_buildEntry_Menge]
      rfl
    · rw [getD, get_setVal_ne _ _ _ _ h1, hkey1]
      rw [getD] at hrkey
      exact hrkey
  · intro pl hpl
    refine ⟨buildEntry r lc q1, happend pl qs1 q1 hq1 hpos1 hpl, ?_, ?_⟩
    · rw [getD, hkey1]
      rw [getD] at hrkey
      exact hrkey
    · exact get_buildEntry_Menge r lc q1

theorem findSome?_eq_none_of {α β : Type} {f : α → Option β} {l : List α}
    (h : ∀ a ∈ l, f a = none) : l.findSome? f = none := by
  induction l with
  | nil => rfl
  | cons a t ih =>
    rw [List.findSome?_cons, h a (List.mem_cons_self a t)]
    exact ih fun b hb => h b (List.mem_cons_of_mem a hb)

theorem any_key_of_get {r : Row} {k : String} {v : Val} (h : get r k = some v) :
    r.any (fun p => p.1 == k) = true := by
  unfold get at h
  cases hf : r.find? (fun p => p.1 == k) with
  | none => rw [hf] at h; simp at h
  | some p =>
    have hp := List.find?_some hf
    exact List.any_eq_true.mpr ⟨p, List.mem_of_find?_eq_some hf, hp⟩

/-- C5: add skips a selected identity — leaving the Pick List unchanged and
raising no error — when its quantity is absent from the mapping (default 0),
when its quantity is ≤ 0, or when no catalog record's stringified
product-column value equals the identity; the selected products are folded
one at a time, so a skipped product does not affect the others. -/
theorem add_skips_invalid (df : List Row) (pc : String) (lc : Option String)
    (qs : List (String × Int)) (pl : List Row) (prod : String) :
    (qs.find? (fun p => p.1 == prod) = none → addOne df pc lc qs pl prod = pl) ∧
    (lookupQty qs prod ≤ 0 → addOne df pc lc qs pl prod = pl) ∧
    (firstMatch df pc prod = none → addOne df pc lc qs pl prod = pl) ∧
    (∀ sel, add_to_picklist df pc lc (prod :: sel) qs pl =
      add_to_picklist df pc lc sel qs (addOne df pc lc qs pl prod)) ∧
    (∀ sel, addOne df pc lc qs pl prod = pl →
      add_to_picklist df pc lc (prod :: sel) qs pl = add_to_picklist df pc lc sel qs pl) := by
  refine ⟨?_, ?_, ?_, ?_, ?_⟩
  · intro h
    have hz : lookupQty qs prod = 0 := by rw [lookupQty, h]; rfl
    rw [addOne_def, hz, if_pos le_rfl]
  · intro h
    rw [addOne_def, if_pos h]
  · intro h
    rw [addOne_def]
    by_cases hq : lookupQty qs prod ≤ 0
    · rw [if_pos hq]
    · rw [if_neg hq, h]
  · intro sel
    rfl
  · intro sel h
    show add_to_picklist df pc lc sel qs (addOne df pc lc qs pl prod) = _
    rw [h]

theorem add_skips_invalid_witness :
    (addOne [[("Item", Val.vStr "X")]] "Item" none [("Y", 5)] [] "X" = []) ∧
    (addOne [[("Item", Val.vStr "X")]] "Item" none [("X", 0)] [] "X" = []) ∧
    (addOne [[("Item", Val.vStr "X")]] "Item" none [("Z", 1)] [] "Z" = []) ∧
    (add_to_picklist [[("Item", Val.vStr "X")]] "Item" none ["Y"] [("Y", 5)] [] =
      add_to_picklist [[("Item", Val.vStr "X")]] "Item" none [] [("Y", 5)] []) :=
  ⟨(add_skips_invalid [[("Item", Val.vStr "X")]] "Item" none [("Y", 5)] [] "X").1 (by decide),
   (add_skips_invalid [[("Item", Val.vStr "X")]] "Item" none [("X", 0)] [] "X").2.1 (by decide),
   (add_skips_invalid [[("Item", Val.vStr "X")]] "Item" none [("Z", 1)] [] "Z").2.2.1 (by decide),
   (add_skips_invalid [[("Item", Val.vStr "X")]] "Item" none [("Y", 5)] [] "Y").2.2.2.2 []
     ((add_skips_invalid [[("Item", Val.vStr "X")]] "Item" none [("Y", 5)] [] "Y").2.2.1
       (by decide))⟩

/-- C6: when no candidate subString occurs (case-insensitively) in any
column name, guess_column returns the first column, and null for an empty
column sequence; an empty candidate list satisfies the premise vacuously. -/
theorem guess_falls_back_to_first (columns candidates : List String)
    (h : ∀ cand ∈ candidates, ∀ c ∈ columns, pyContains (pyLower c) (pyLower cand) = false) :
    guess_column columns candidates = columns.head? := by
  have hnone : ∀ cand ∈ candidates, findCand (colsLower columns) (pyLower cand) = none := by
    intro cand hc
    rw [findCand]
    have hf : (colsLower columns).find? (fun p => pyContains p.1 (pyLower cand)) = none := by
      refine List.find?_eq_none.mpr ?_
      intro p hp
      obtain ⟨hmem, hlow⟩ := colsLower_mem hp
      rw [← hlow, h cand hc p.2 hmem]
      exact Bool.false_ne_true
    rw [hf]
    rfl
  rw [guess_column, findSome?_eq_none_of hnone]

theorem guess_falls_back_to_first_witness :
    guess_column ["Artikel", "Ort"] ["xyz"] = some "Artikel" :=
  guess_falls_back_to_first ["Artikel", "Ort"] ["xyz"] (by decide)

/-- C7: guess_column consults candidates in order; for the first candidate
matching any column it returns the first lookup entry whose key (the
lowercased column name) contains that candidate's lowercased form, a column
whose lowercased name contains the candidate; later candidates are never
consulted (the conclusion does not depend on `post`). -/
theorem guess_returns_first_match (columns : List String) (pre : List String) (cand : String)
    (post : List String) (d1 d2 : List (String × String)) (k col : String)
    (hpre : ∀ c ∈ pre, ∀ p ∈ colsLower columns, pyContains p.1 (pyLower c) = false)
    (hd : colsLower columns = d1 ++ (k, col) :: d2)
    (hd1 : ∀ p ∈ d1, pyContains p.1 (pyLower cand) = false)
    (hk : pyContains k (pyLower cand) = true) :
    guess_column columns (pre ++ cand :: post) = some col ∧
      pyContains (pyLower col) (pyLower cand) = true := by
  have hcol : pyLower col = k := by
    have hmem : (k, col) ∈ colsLower columns := by
      rw [hd]
      exact List.mem_append.mpr (Or.inr (List.mem_cons_self _ _))
    exact (colsLower_mem hmem).2
  constructor
  · have hfind : findCand (colsLower columns) (pyLower cand) = some col := by
      have hfc : List.find? (fun a => pyContains a.1 (pyLower cand)) ((k, col) :: d2) =
          some (k, col) :=
        List.find?_cons_of_pos d2 (show pyContains (k, col).1 (pyLower cand) = true from hk)
      rw [findCand, hd, find?_append_none hd1, hfc]
      rfl
    have hprenone : ∀ a ∈ pre, findCand (colsLower columns) (pyLower a) = none := by
      intro a ha
      rw [findCand]
      have hf : (colsLower columns).find? (fun p => pyContains p.1 (pyLower a)) = none := by
        refine List.find?_eq_none.mpr ?_
        intro p hp
        rw [hpre a ha p hp]
        exact Bool.false_ne_true
      rw [hf]
      rfl
    rw [guess_column, findSome?_append_none hprenone, List.findSome?_cons, hfind]
  · rw [hcol]
    exact hk

theorem guess_returns_first_match_witness :
    guess_column ["Artikelname", "Lagerort"] (["zzz"] ++ "name" :: ["lager"]) =
      some "Artikelname" ∧
    pyContains (pyLower "Artikelname") (pyLower "name") = true :=
  guess_returns_first_match ["Artikelname", "Lagerort"] ["zzz"] "name" ["lager"]
    [] [("lagerort", "Lagerort")] "artikelname" "Artikelname"
    (by decide) (by decide) (by decide) (by decide)

/-- C8: filtering with a term that is empty or whitespace-only returns the
input row sequence unchanged. -/
theorem filter_identity_on_blank (df : List Row) (cols : List String) (term : String)
    (h : pyStrip term = "") : filter_search df term cols = df := by
  rw [filter_search]
  split
  · rfl
  · dsimp only
    rw [h, if_pos (by decide : (("" : String) == "") = true)]

theorem filter_identity_on_blank_witness :
    pyStrip "  " = "" ∧
    filter_search [[("A", Val.vStr "x")]] "  " ["A"] = [[("A", Val.vStr "x")]] :=
  ⟨by decide, filter_identity_on_blank [[("A", Val.vStr "x")]] ["A"] "  " (by decide)⟩

theorem add_merges_duplicate_identity_witness :
    ∃ e, add_to_picklist [[("Item", Val.vStr "Bolt"), ("Bin", Val.vStr "A1")]]
        "Item" (some "Bin") ["Bolt"] [("Bolt", 3)]
        (add_to_picklist [[("Item", Val.vStr "Bolt"), ("Bin", Val.vStr "A1")]]
          "Item" (some "Bin") ["Bolt"] [("Bolt", 2)] []) = [e] ∧
      get e "Menge" = some (.vInt (2 + 3)) ∧ pyStr (getD e "Item" .vNan) = "Bolt" :=
  (add_merges_duplicate_identity
    [[("Item", Val.vStr "Bolt"), ("Bin", Val.vStr "A1")]] "Item" (some "Bin") "Bolt"
    [("Item", Val.vStr "Bolt"), ("Bin", Val.vStr "A1")] 2 3 [("Bolt", 2)] [("Bolt", 3)]
    (by decide) (by decide) (by decide) (by decide) (by decide) (by decide)
    (by decide) (by decide)).1

/-- C1 as stated is false without restriction: with the product column
literally named "Menge", adding the same identity "5" twice with
quantities 2 then 3 leaves two entries (the quantity overwrote the
identity field, so the second add does not find the first entry), not one
entry of quantity 5. -/
theorem add_merges_duplicate_identity_counterexample :
    add_to_picklist [[("Menge", Val.vStr "5")]] "Menge" none ["5"] [("5", 3)]
      (add_to_picklist [[("Menge", Val.vStr "5")]] "Menge" none ["5"] [("5", 2)] []) =
    [[("Menge", Val.vInt 2)], [("Menge", Val.vInt 3)]] := by decide

/-- C3 (amended): for every term that is non-whitespace after stripping and
free of regex metacharacters (the code hands the term to a regex engine), a
row is kept iff at least one search column's stringified value contains the
STRIPPED term as a case-insensitive subString; the result is a sub-sequence
of the input in original order, and terms equal up to case (after
stripping) produce identical results. -/
theorem filter_keeps_matching_rows (df : List Row) (term : String) (cols : List String)
    (ht : pyStrip term ≠ "") (hreg : regexLiteral term = true) :
    (∀ r, r ∈ filter_search df term cols ↔
      (r ∈ df ∧ cols.any (fun c => pyContainsCI (cellStr r c) (pyStrip term)) = true)) ∧
    (filter_search df term cols).Sublist df ∧
    (∀ t2, regexLiteral t2 = true → pyStrip t2 ≠ "" →
      pyLower (pyStrip t2) = pyLower (pyStrip term) →
      filter_search df t2 cols = filter_search df term cols) := by
  have hunf : ∀ s : String, pyStrip s ≠ "" →
      filter_search df s cols =
        df.filter (fun r => cols.any (fun c => pyContainsCI (cellStr r c) (pyStrip s))) := by
    intro s hs
    have h1 : (s == "") = false := by
      refine beq_eq_false_iff_ne.mpr ?_
      intro he
      rw [he] at hs
      exact hs (by decide)
    have h2 : (pyStrip s == "") = false := beq_eq_false_iff_ne.mpr hs
    rw [filter_search, h1]
    dsimp only
    rw [h2]
    rfl
  refine ⟨?_, ?_, ?_⟩
  · intro r
    rw [hunf term ht]
    exact List.mem_filter
  · rw [hunf term ht]
    exact List.filter_sublist df
  · intro t2 hreg2 ht2 hlow
    rw [hunf t2 ht2, hunf term ht]
    congr 1
    funext r
    congr 1
    funext c
    rw [pyContainsCI, pyContainsCI, hlow]

theorem filter_keeps_matching_rows_witness :
    filter_search [[("Item", Val.vStr "Bolt")], [("Item", Val.vStr "Nut")]] " BO " ["Item"] =
      filter_search [[("Item", Val.vStr "Bolt")], [("Item", Val.vStr "Nut")]] "bo" ["Item"] :=
  (filter_keeps_matching_rows [[("Item", Val.vStr "Bolt")], [("Item", Val.vStr "Nut")]]
    "bo" ["Item"] (by decide) (by decide)).2.2 " BO " (by decide) (by decide) (by decide)

/-- C3 as stated is false: the code strips the term before matching, so the
term " a" (not all-whitespace) keeps the row whose only searched value is
"a", although "a" does not contain " a" as a subString. -/
theorem filter_keeps_matching_rows_counterexample :
    filter_search [[("Item", Val.vStr "a")]] " a" ["Item"] = [[("Item", Val.vStr "a")]] ∧
    pyContainsCI (cellStr [("Item", Val.vStr "a")] "Item") " a" = false := by decide

/-- C4: at the failing input, the code stringifies the missing value to
"nan" before `str.contains` ever sees it, so the row with a null "Item"
matches the term "nan" and is returned — the `na=False` argument meant to
make nulls non-matching is dead. -/
theorem filter_null_matches_nan :
    filter_search [[("Item", Val.vNan)]] "nan" ["Item"] = [[("Item", Val.vNan)]] := by decide

/-- C9: when add merges into an existing entry, the result replaces exactly
that entry by itself with "Menge" incremented, in place: the entries before
and after it are untouched, no entry is added, and every field of the
updated entry other than "Menge" is unchanged. -/
theorem add_merge_frame (df : List Row) (pc : String) (lc : Option String)
    (qs : List (String × Int)) (prod : String) (pre : List Row) (e : Row) (post : List Row)
    (r : Row) (hq : 0 < lookupQty qs prod) (hr : firstMatch df pc prod = some r)
    (hpre : ∀ x ∈ pre,
      pyEqOpt (get x pc) (get (buildEntry r lc (lookupQty qs prod)) pc) = false)
    (he : pyEqOpt (get e pc) (get (buildEntry r lc (lookupQty qs prod)) pc) = true) :
    addOne df pc lc qs (pre ++ e :: post) prod =
      pre ++ setVal e "Menge" (mengeAdd (get e "Menge") (lookupQty qs prod)) :: post ∧
    ∀ k, k ≠ "Menge" →
      get (setVal e "Menge" (mengeAdd (get e "Menge") (lookupQty qs prod))) k = get e k := by
  constructor
  · rw [addOne_def, if_neg (not_le.mpr hq), hr]
    dsimp only
    rw [mergeInto_found pc _ (lookupQty qs prod) e post pre hpre he]
  · intro k hk
    exact get_setVal_ne _ _ _ _ hk

theorem add_merge_frame_witness :
    addOne [[("Item", Val.vStr "A")]] "Item" none [("A", 1)]
      ([] ++ [("Item", Val.vStr "A"), ("Menge", Val.vInt 2)] :: []) "A" =
      [] ++ setVal [("Item", Val.vStr "A"), ("Menge", Val.vInt 2)] "Menge"
        (mengeAdd (get [("Item", Val.vStr "A"), ("Menge", Val.vInt 2)] "Menge")
          (lookupQty [("A", 1)] "A")) :: [] ∧
    ∀ k, k ≠ "Menge" →
      get (setVal [("Item", Val.vStr "A"), ("Menge", Val.vInt 2)] "Menge"
        (mengeAdd (get [("Item", Val.vStr "A"), ("Menge", Val.vInt 2)] "Menge")
          (lookupQty [("A", 1)] "A"))) k =
      get [("Item", Val.vStr "A"), ("Menge", Val.vInt 2)] k :=
  add_merge_frame [[("Item", Val.vStr "A")]] "Item" none [("A", 1)] "A"
    [] [("Item", Val.vStr "A"), ("Menge", Val.vInt 2)] [] [("Item", Val.vStr "A")]
    (by decide) (by decide) (by decide) (by decide)

/-- C10: the entry built for a matched record stores the computed quantity
under the fixed key "Menge" and the copied location value under the fixed
key "Lagerort_Anzeige", even when the catalog record already carried
values under those very column names (they are overwritten in the entry);
all other fields are copied from the record. -/
theorem entry_fixed_field_names (df : List Row) (pc l : String)
    (qs : List (String × Int)) (prod : String) (r : Row) (v0 u0 w : Val) (qty : Int)
    (hq : lookupQty qs prod = qty) (hpos : 0 < qty)
    (hr : firstMatch df pc prod = some r)
    (hm0 : get r "Menge" = some v0) (hla : get r "Lagerort_Anzeige" = some u0)
    (hlne : l ≠ "") (hlnm : l ≠ "Menge") (hlv : get r l = some w) :
    ∃ e, addOne df pc (some l) qs [] prod = [e] ∧
      get e "Menge" = some (.vInt qty) ∧
      get e "Lagerort_Anzeige" = some w ∧
      ∀ k, k ≠ "Menge" → k ≠ "Lagerort_Anzeige" → get e k = get r k := by
  have hl' : get (setVal r "Menge" (.vInt qty)) l = some w := by
    rw [get_setVal_ne _ _ _ _ hlnm]
    exact hlv
  have hguard : (l != "" && (setVal r "Menge" (.vInt qty)).any (fun p => p.1 == l)) = true := by
    rw [Bool.and_eq_true]
    exact ⟨bne_iff_ne.mpr hlne, any_key_of_get hl'⟩
  have hbuild : buildEntry r (some l) qty =
      setVal (setVal r "Menge" (.vInt qty)) "Lagerort_Anzeige"
        (getD (setVal r "Menge" (.vInt qty)) l .vNan) := by
    rw [buildEntry_some, if_pos hguard]
  have hgetl : getD (setVal r "Menge" (.vInt qty)) l .vNan = w := by
    rw [getD, hl']
    rfl
  refine ⟨buildEntry r (some l) qty, ?_, get_buildEntry_Menge r (some l) qty, ?_, ?_⟩
  · rw [addOne_def, hq, if_neg (not_le.mpr hpos), hr]
    dsimp only
    rw [show mergeInto ([] : List Row) pc (get (buildEntry r (some l) qty) pc) qty = none
      from rfl]
    rfl
  · rw [hbuild, get_setVal_same, hgetl]
  · intro k hk1 hk2
    exact get_buildEntry_ne r (some l) qty k hk1 hk2

theorem entry_fixed_field_names_witness :
    ∃ e, addOne [[("Menge", Val.vStr "legacy"), ("Lagerort_Anzeige", Val.vStr "legacyloc"),
        ("Item", Val.vStr "Bolt"), ("Bin", Val.vStr "A1")]]
        "Item" (some "Bin") [("Bolt", 4)] [] "Bolt" = [e] ∧
      get e "Menge" = some (.vInt 4) ∧
      get e "Lagerort_Anzeige" = some (Val.vStr "A1") ∧
      ∀ k, k ≠ "Menge" → k ≠ "Lagerort_Anzeige" →
        get e k = get [("Menge", Val.vStr "legacy"), ("Lagerort_Anzeige", Val.vStr "legacyloc"),
          ("Item", Val.vStr "Bolt"), ("Bin", Val.vStr "A1")] k :=
  entry_fixed_field_names
    [[("Menge", Val.vStr "legacy"), ("Lagerort_Anzeige", Val.vStr "legacyloc"),
      ("Item", Val.vStr "Bolt"), ("Bin", Val.vStr "A1")]]
    "Item" "Bin" [("Bolt", 4)] "Bolt"
    [("Menge", Val.vStr "legacy"), ("Lagerort_Anzeige", Val.vStr "legacyloc"),
      ("Item", Val.vStr "Bolt"), ("Bin", Val.vStr "A1")]
    (Val.vStr "legacy") (Val.vStr "legacyloc") (Val.vStr "A1") 4
    (by decide) (by decide) (by decide) (by decide) (by decide) (by decide)
    (by decide) (by decide)

end InvApp
